import Mathlib

/-!
Verification of a small interactive shell (tokenizer, command parser,
executable resolver, dispatcher and read loop) against its design
specification.  The definitions below are a shallow embedding of the
program's `lib.rs`: pure Rust functions become Lean functions, panics
(`unreachable!`, `.expect(...)`, `process::exit`) become explicit
`Option`/result markers, and the external collaborators (filesystem
metadata, environment variables, process spawning, `chdir`) become
explicit function parameters gathered in an `Env` structure.
-/

namespace Sh

/-- Unicode White_Space predicate, as used by Rust's `char::is_whitespace`
(the tokenizer's `c.is_whitespace()` test). -/
def isRustWhitespace (c : Char) : Bool :=
  let n := c.toNat
  (0x9 ≤ n && n ≤ 0xD) || n == 0x20 || n == 0x85 || n == 0xA0 || n == 0x1680 ||
  (0x2000 ≤ n && n ≤ 0x200A) || n == 0x2028 || n == 0x2029 || n == 0x202F ||
  n == 0x205F || n == 0x3000

/-- Quote state of the tokenizer (`enum Quote` in the source:
`None`, `Single`, `Double`). -/
inductive Quote where
  | none
  | single
  | double
deriving DecidableEq

/-- Tokenizer action (`enum Action` in the source). -/
inductive Action where
  | push (c : Char)
  | flush
  | setQuote (q : Quote)
  | startEscape
  | consume (c : Char)
deriving DecidableEq

/-- Transition function of the tokenizer (`fn step` in the source),
translated arm by arm. -/
def step (quote : Quote) (escaped : Bool) (c : Char) : Action :=
  if escaped then Action.consume c
  else
    match quote with
    | Quote.none =>
      if c = '\\' then Action.startEscape
      else if c = '\'' then Action.setQuote Quote.single
      else if c = '"' then Action.setQuote Quote.double
      else if isRustWhitespace c then Action.flush
      else Action.push c
    | Quote.single =>
      if c = '\'' then Action.setQuote Quote.none
      else Action.push c
    | Quote.double =>
      if c = '"' then Action.setQuote Quote.none
      else if c = '\\' then Action.startEscape
      else Action.push c

/-- Loop state of `fn parse_args`: emitted tokens (`out_str`), current
accumulator (`current_str`), quote state and escape flag.  Strings are
modelled as lists of characters. -/
structure TokState where
  out : List (List Char)
  cur : List Char
  quote : Quote
  escaped : Bool
deriving DecidableEq

/-- The `Action::Flush` arm of `parse_args`: a non-empty accumulator is
pushed onto the output, an empty one is dropped. -/
def flushOut (s : TokState) : List (List Char) :=
  if s.cur = [] then s.out else s.out ++ [s.cur]

/-- The `Action::Consume` arm of `parse_args`.  The `Quote::Single` case is
`unreachable!` in the source (a panic), modelled as `none`. -/
def applyConsume (quote : Quote) (ch : Char) (cur : List Char) : Option (List Char) :=
  match quote with
  | Quote.none => some (cur ++ [ch])
  | Quote.single => none
  | Quote.double =>
    if ch = '"' ∨ ch = '\\' then some (cur ++ [ch])
    else some (cur ++ ['\\', ch])

/-- One iteration of the `for c in input.chars()` loop of `parse_args`:
apply the action chosen by `step` to the loop state.  `none` models the
`unreachable!` panic. -/
def stepState (s : TokState) (c : Char) : Option TokState :=
  match step s.quote s.escaped c with
  | Action.push ch => some { s with cur := s.cur ++ [ch] }
  | Action.flush => some { s with out := flushOut s, cur := [] }
  | Action.setQuote q => some { s with quote := q }
  | Action.startEscape => some { s with escaped := true }
  | Action.consume ch =>
    match applyConsume s.quote ch s.cur with
    | some cur => some { s with cur := cur, escaped := false }
    | none => none

/-- The whole character loop of `parse_args`. -/
def runToks : TokState → List Char → Option TokState
  | s, [] => some s
  | s, c :: cs =>
    match stepState s c with
    | some t => runToks t cs
    | none => none

/-- Initial loop state of `parse_args`. -/
def initState : TokState := ⟨[], [], Quote.none, false⟩

/-- End-of-input handling of `parse_args`: a still-set escape flag appends
a literal backslash, then a non-empty accumulator is flushed. -/
def finishToks (s : TokState) : List (List Char) :=
  let cur := if s.escaped then s.cur ++ ['\\'] else s.cur
  if cur = [] then s.out else s.out ++ [cur]

/-- The tokenizer `fn parse_args(input) -> Vec<String>`; `none` models the
`unreachable!` panic inside the `Consume` arm. -/
def parse_args (input : String) : Option (List String) :=
  match runToks initState input.data with
  | some s => some ((finishToks s).map (fun l => String.mk l))
  | none => none

/-- Total wrapper around `parse_args`; justified by `parse_args_total`
below, which shows the panic branch is unreachable. -/
def tokenize (input : String) : List String :=
  match parse_args input with
  | some ts => ts
  | none => []

example : tokenize "echo 'hello   world'" = ["echo", "hello   world"] := by decide
example : tokenize "\"\"" = [] := by decide
example : tokenize "a\\ b" = ["a b"] := by decide
example : tokenize "\"a\\nb\"" = ["a\\nb"] := by decide
example : tokenize "\"a\\\"b\"" = ["a\"b"] := by decide
example : tokenize "abc\\" = ["abc\\"] := by decide
example : tokenize "'a\\b'" = ["a\\b"] := by decide

/-- Rust `Path::join` on unix, as used by `dir.join(name)` and
`PathBuf::from(home).join(stripped)`: an absolute right operand replaces
the whole path, otherwise the operand is appended, inserting a `/`
separator when the base does not already end in one. -/
def pathJoin (base p : String) : String :=
  if p.data.head? = some '/' then p
  else if base.data.getLast? = some '/' then base ++ p
  else base ++ "/" ++ p

/-- The slice of `fs::Metadata` the program consults: `is_file()` and the
unix permission mode. -/
structure Metadata where
  isFile : Bool
  mode : Nat
deriving DecidableEq

/-- The source's `fn is_executable`: at least one of the three execute
permission bits is set. -/
def is_executable (m : Metadata) : Bool :=
  m.mode &&& 0o111 != 0

/-- A filesystem-metadata collaborator: maps a path to its metadata, or
`none` when `fs::metadata` errors (no such file). -/
def FsModel : Type := String → Option Metadata

/-- The acceptance test applied to a candidate path by
`Shell::try_find_executable`: metadata exists, is a regular file, and is
executable. -/
def execOk (fs : FsModel) (p : String) : Bool :=
  match fs p with
  | some md => md.isFile && is_executable md
  | none => false

/-- The source's `Shell::try_find_executable`: scan the search path in
order and return the first candidate passing `execOk`. -/
def try_find_executable (fs : FsModel) (path_dirs : List String) (name : String) :
    Option String :=
  match path_dirs with
  | [] => none
  | dir :: rest =>
    let candidate := pathJoin dir name
    match fs candidate with
    | some md =>
      if md.isFile && is_executable md then some candidate
      else try_find_executable fs rest name
    | none => try_find_executable fs rest name

/-- The builtin table installed by `Shell::new`. -/
def builtins : List String := ["exit", "echo", "type", "pwd", "cd"]

/-- The source's `enum ShellError`; `io::Error` is abstracted to its
message text. -/
inductive ShellError where
  | io (msg : String)
  | shellMessage (s : String)
  | commandNotFound (cmd : String)
  | notFound (cmd : String)
deriving DecidableEq

/-- The `Display` implementation for `ShellError`, arm by arm. -/
def displayShellError : ShellError → String
  | ShellError.io e => "I/O error: " ++ e
  | ShellError.shellMessage s => s
  | ShellError.commandNotFound cmd => cmd ++ ": command not found"
  | ShellError.notFound cmd => cmd ++ ": not found"

/-- The source's `enum Command`, with each variant carrying the fields its
struct holds after parsing. -/
inductive Command where
  | exit
  | echo (args : String)
  | pwd
  | cd (path : String)
  | typeCmd (arg : String)
  | external (name : String) (args : List String)
deriving DecidableEq

/-- Rust `str::split_once(sep)` at character granularity: split at the
first occurrence of `sep`, or `none` when absent. -/
def splitOnceChar (sep : Char) : List Char → Option (List Char × List Char)
  | [] => none
  | c :: cs =>
    if c = sep then some ([], cs)
    else (splitOnceChar sep cs).map (fun p => (c :: p.1, p.2))

/-- The head split of `Command::parse`:
`input.split_once(' ').unwrap_or((input, ""))`. -/
def parseNameArgs (input : String) : String × String :=
  match splitOnceChar ' ' input.data with
  | some (n, r) => (String.mk n, String.mk r)
  | none => (input, "")

/-- Rust slice `join(" ")` at the character-list level. -/
def joinSepL : List (List Char) → List Char
  | [] => []
  | [t] => t
  | t :: ts => t ++ ' ' :: joinSepL ts

/-- Rust `Vec<String>::join(" ")`, as used by `Command::parse` for the
`echo`, `type` and `cd` argument strings. -/
def joinSpace (ts : List String) : String :=
  String.mk (joinSepL (ts.map String.data))

/-- The source's `Command::parse`, matching the command name arm by arm. -/
def Command.parse (input : String) : Command :=
  let p := parseNameArgs input
  let parsed := tokenize p.2
  if p.1 = "exit" then Command.exit
  else if p.1 = "echo" then Command.echo (joinSpace parsed)
  else if p.1 = "type" then Command.typeCmd (joinSpace parsed)
  else if p.1 = "pwd" then Command.pwd
  else if p.1 = "cd" then Command.cd (joinSpace parsed)
  else Command.external p.1 parsed

/-- The path computation of `CdCmd::run`: strip a leading `~`, substitute
`HOME` via `PathBuf::join` (the `.expect` panic on a missing `HOME` is
modelled as `none`); a target without the `~` prefix is used literally. -/
def cdActualPath (home : Option String) (target : String) : Option String :=
  match target.data with
  | c :: rest =>
    if c = '~' then
      match home with
      | some h => some (pathJoin h (String.mk rest))
      | none => none
    else some target
  | [] => some target

/-- The external collaborators of the dispatcher: filesystem metadata, the
captured search path, the `HOME` variable, the current-directory query
(`Except.error` = I/O failure), the `chdir` outcome, and process spawning
(`Except.ok` = captured stdout, `Except.error` = I/O failure). -/
structure Env where
  fs : FsModel
  path_dirs : List String
  home : Option String
  cwd : Except String String
  chdirOk : String → Bool
  runExternal : String → List String → Except String String

/-- Result of executing one command: normal output written to stdout, a
`ShellError`, a clean `process::exit(0)`, or a fatal panic
(`.expect` on a missing `HOME`). -/
inductive ExecResult where
  | ok (outs : List String)
  | err (e : ShellError)
  | exited
  | fatal
deriving DecidableEq

/-- The dispatcher: `Command::run` plus the per-variant `CommandExec`
implementations (`ExitCmd`, `EchoCmd`, `PwdCmd`, `CdCmd`, `TypeCmd`,
`ExternalCmd`), translated arm by arm. -/
def commandRun (env : Env) : Command → ExecResult
  | Command.exit => ExecResult.exited
  | Command.echo args => ExecResult.ok [args]
  | Command.pwd =>
    match env.cwd with
    | Except.ok d => ExecResult.ok [d]
    | Except.error m => ExecResult.err (ShellError.io m)
  | Command.cd path =>
    match cdActualPath env.home path with
    | none => ExecResult.fatal
    | some actual =>
      if env.chdirOk actual then ExecResult.ok []
      else ExecResult.err
        (ShellError.shellMessage ("cd: " ++ path ++ ": No such file or directory"))
  | Command.typeCmd arg =>
    if arg ∈ builtins then ExecResult.ok [arg ++ " is a shell builtin"]
    else
      match try_find_executable env.fs env.path_dirs arg with
      | some p => ExecResult.ok [arg ++ " is " ++ p]
      | none => ExecResult.err (ShellError.notFound arg)
  | Command.external name args =>
    match try_find_executable env.fs env.path_dirs name with
    | some _ =>
      match env.runExternal name args with
      | Except.ok out => ExecResult.ok [out]
      | Except.error m => ExecResult.err (ShellError.io m)
    | none => ExecResult.err (ShellError.notFound name)

/-- The error classification of the read loop in `Shell::run`:
`CommandNotFound` and `NotFound` go to `println!`, everything else to
`eprintln!`. -/
def isUserFacing : ShellError → Bool
  | ShellError.commandNotFound _ => true
  | ShellError.notFound _ => true
  | _ => false

/-- Outcome of one iteration of the read loop: the session continues
(with the lines written to stdout and stderr), terminates cleanly via
`process::exit(0)`, or aborts on a panic. -/
inductive IterResult where
  | continueSession (stdoutLines stderrLines : List String)
  | exited
  | fatal
deriving DecidableEq

/-- One iteration of the read loop of `Shell::run` on an already-trimmed
input line: parse, execute, and on error print via the classification
match. -/
def iteration (env : Env) (line : String) : IterResult :=
  match commandRun env (Command.parse line) with
  | ExecResult.ok outs => IterResult.continueSession outs []
  | ExecResult.err e =>
    if isUserFacing e then IterResult.continueSession [displayShellError e] []
    else IterResult.continueSession [] [displayShellError e]
  | ExecResult.exited => IterResult.exited
  | ExecResult.fatal => IterResult.fatal

/-- Membership in the flushed output decomposes into the old output or the
(non-empty) accumulator. -/
theorem flushOut_mem (s : TokState) (tok : List Char) (h : tok ∈ flushOut s) :
    tok ∈ s.out ∨ tok = s.cur ∧ s.cur ≠ [] := by
  unfold flushOut at h
  by_cases hc : s.cur = []
  · rw [if_pos hc] at h
    exact Or.inl h
  · rw [if_neg hc] at h
    rcases List.mem_append.1 h with h | h
    · exact Or.inl h
    · exact Or.inr ⟨List.mem_singleton.1 h, hc⟩

/-- One step of the tokenizer loop never panics when the escape flag is
not set inside single quotes, preserves that invariant, and only ever
adds the (non-empty) accumulator to the output. -/
theorem stepState_pres (s : TokState) (c : Char)
    (h : s.escaped = true → s.quote ≠ Quote.single) :
    ∃ t, stepState s c = some t ∧
      (t.escaped = true → t.quote ≠ Quote.single) ∧
      (∀ tok ∈ t.out, tok ∈ s.out ∨ tok = s.cur ∧ s.cur ≠ []) := by
  cases hesc : s.escaped with
  | true =>
    have hq := h hesc
    cases hquote : s.quote with
    | single => exact absurd hquote hq
    | none =>
      refine ⟨{ s with cur := s.cur ++ [c], escaped := false }, ?_, ?_, ?_⟩
      · simp [stepState, step, hesc, hquote, applyConsume]
      · intro hfalse; simp at hfalse
      · intro tok htok; exact Or.inl htok
    | double =>
      by_cases hc : c = '"' ∨ c = '\\'
      · refine ⟨{ s with cur := s.cur ++ [c], escaped := false }, ?_, ?_, ?_⟩
        · simp [stepState, step, hesc, hquote, applyConsume, hc]
        · intro hfalse; simp at hfalse
        · intro tok htok; exact Or.inl htok
      · refine ⟨{ s with cur := s.cur ++ ['\\', c], escaped := false }, ?_, ?_, ?_⟩
        · simp [stepState, step, hesc, hquote, applyConsume, hc]
        · intro hfalse; simp at hfalse
        · intro tok htok; exact Or.inl htok
  | false =>
    cases hquote : s.quote with
    | none =>
      by_cases h1 : c = '\\'
      · refine ⟨{ s with escaped := true }, ?_, ?_, ?_⟩
        · simp [stepState, step, hesc, hquote, h1]
        · intro _; show s.quote ≠ Quote.single; rw [hquote]; simp
        · intro tok htok; exact Or.inl htok
      · by_cases h2 : c = '\''
        · refine ⟨{ s with quote := Quote.single }, ?_, ?_, ?_⟩
          · simp [stepState, step, hesc, hquote, h1, h2]
          · intro hfalse; simp [hesc] at hfalse
          · intro tok htok; exact Or.inl htok
        · by_cases h3 : c = '"'
          · refine ⟨{ s with quote := Quote.double }, ?_, ?_, ?_⟩
            · simp [stepState, step, hesc, hquote, h1, h2, h3]
            · intro hfalse; simp [hesc] at hfalse
            · intro tok htok; exact Or.inl htok
          · by_cases h4 : isRustWhitespace c
            · refine ⟨{ s with out := flushOut s, cur := [] }, ?_, ?_, ?_⟩
              · simp [stepState, step, hesc, hquote, h1, h2, h3, h4]
              · intro hfalse; simp [hesc] at hfalse
              · intro tok htok; exact flushOut_mem s tok htok
            · refine ⟨{ s with cur := s.cur ++ [c] }, ?_, ?_, ?_⟩
              · simp [stepState, step, hesc, hquote, h1, h2, h3, h4]
              · intro hfalse; simp [hesc] at hfalse
              · intro tok htok; exact Or.inl htok
    | single =>
      by_cases h1 : c = '\''
      · refine ⟨{ s with quote := Quote.none }, ?_, ?_, ?_⟩
        · simp [stepState, step, hesc, hquote, h1]
        · intro hfalse; simp [hesc] at hfalse
        · intro tok htok; exact Or.inl htok
      · refine ⟨{ s with cur := s.cur ++ [c] }, ?_, ?_, ?_⟩
        · simp [stepState, step, hesc, hquote, h1]
        · intro hfalse; simp [hesc] at hfalse
        · intro tok htok; exact Or.inl htok
    | double =>
      by_cases h1 : c = '"'
      · refine ⟨{ s with quote := Quote.none }, ?_, ?_, ?_⟩
        · simp [stepState, step, hesc, hquote, h1]
        · intro hfalse; simp [hesc] at hfalse
        · intro tok htok; exact Or.inl htok
      · by_cases h2 : c = '\\'
        · refine ⟨{ s with escaped := true }, ?_, ?_, ?_⟩
          · simp [stepState, step, hesc, hquote, h1, h2]
          · intro _; show s.quote ≠ Quote.single; rw [hquote]; simp
          · intro tok htok; exact Or.inl htok
        · refine ⟨{ s with cur := s.cur ++ [c] }, ?_, ?_, ?_⟩
          · simp [stepState, step, hesc, hquote, h1, h2]
          · intro hfalse; simp [hesc] at hfalse
          · intro tok htok; exact Or.inl htok

/-- The whole tokenizer loop never panics starting from a state satisfying
the single-quote/escape invariant, and every token it adds to the output
along the way is non-empty. -/
theorem runToks_pres : ∀ (cs : List Char) (s : TokState),
    (s.escaped = true → s.quote ≠ Quote.single) →
    ∃ t, runToks s cs = some t ∧
      (t.escaped = true → t.quote ≠ Quote.single) ∧
      (∀ tok ∈ t.out, tok ∈ s.out ∨ tok ≠ [])
  | [], s, h => ⟨s, rfl, h, fun _ htok => Or.inl htok⟩
  | c :: cs, s, h => by
    obtain ⟨t, ht, hinv, hout⟩ := stepState_pres s c h
    obtain ⟨u, hu, huinv, huout⟩ := runToks_pres cs t hinv
    refine ⟨u, ?_, huinv, ?_⟩
    · simp [runToks, ht, hu]
    · intro tok htok
      rcases huout tok htok with h1 | h1
      · rcases hout tok h1 with h2 | h2
        · exact Or.inl h2
        · exact Or.inr (h2.1 ▸ h2.2)
      · exact Or.inr h1

/-- The `unreachable!` panic of `parse_args` is never hit: the tokenizer
returns a value on every input, and the total wrapper agrees with it. -/
theorem parse_args_eq_some (input : String) : parse_args input = some (tokenize input) := by
  obtain ⟨t, ht, -, -⟩ :=
    runToks_pres input.data initState (fun hfalse => by simp [initState] at hfalse)
  simp [parse_args, tokenize, ht]

/-- C1: for every input state with the escape flag set, the tokenizer
handles the escaped character according to the quote state: the step is
always `Consume`; when Unquoted the character is pushed literally; when
DoubleQuoted it is pushed literally exactly when it is a double quote or a
backslash, and otherwise the backslash and the character are both pushed;
in both cases the escape flag is cleared after this single character. -/
theorem tokenizer_escaped_char_handling (s : TokState) (c : Char)
    (h : s.escaped = true) :
    step s.quote s.escaped c = Action.consume c ∧
    (s.quote = Quote.none →
      stepState s c = some { s with cur := s.cur ++ [c], escaped := false }) ∧
    (s.quote = Quote.double →
      stepState s c = some { s with
        cur := if c = '"' ∨ c = '\\' then s.cur ++ [c] else s.cur ++ ['\\', c],
        escaped := false }) := by
  refine ⟨?_, ?_, ?_⟩
  · rw [h]; simp [step]
  · intro hq
    by_cases hc : c = '"' ∨ c = '\\' <;>
      simp [stepState, step, h, hq, applyConsume, hc]
  · intro hq
    by_cases hc : c = '"' ∨ c = '\\' <;>
      simp [stepState, step, h, hq, applyConsume, hc]

/-- Witness for C1: the escaped-character handling evaluated on concrete
states, one per quote context. -/
theorem tokenizer_escaped_char_handling_witness :
    stepState ⟨[], ['a'], Quote.none, true⟩ 'x' =
      some ⟨[], ['a', 'x'], Quote.none, false⟩ ∧
    stepState ⟨[], ['a'], Quote.double, true⟩ 'n' =
      some ⟨[], ['a', '\\', 'n'], Quote.double, false⟩ ∧
    stepState ⟨[], ['a'], Quote.double, true⟩ '"' =
      some ⟨[], ['a', '"'], Quote.double, false⟩ := by
  refine ⟨?_, ?_, ?_⟩
  · exact (tokenizer_escaped_char_handling ⟨[], ['a'], Quote.none, true⟩ 'x' rfl).2.1 rfl
  · have h := (tokenizer_escaped_char_handling ⟨[], ['a'], Quote.double, true⟩ 'n' rfl).2.2 rfl
    have hc : ¬('n' = '"' ∨ 'n' = '\\') := by decide
    rw [if_neg hc] at h
    exact h
  · have h := (tokenizer_escaped_char_handling ⟨[], ['a'], Quote.double, true⟩ '"' rfl).2.2 rfl
    have hc : ('"' = '"' ∨ '"' = '\\') := by decide
    rw [if_pos hc] at h
    exact h

/-- C2: inside single quotes a backslash is pushed literally and never
starts an escape, so the `unreachable!` arm of `parse_args` (the `Consume`
branch in the SingleQuoted state, modelled as `none`) is never executed:
the tokenizer returns a value on every input. -/
theorem single_quote_backslash_never_panics :
    step Quote.single false '\\' = Action.push '\\' ∧
    (∀ input : String, (parse_args input).isSome = true) := by
  refine ⟨by decide, fun input => ?_⟩
  rw [parse_args_eq_some input]
  rfl

/-- C3: the tokenizer never emits an empty token: every token of every
successful parse is non-empty, and an argument of bare empty quotes is
dropped, so tokenizing a quoted empty string and tokenizing the empty
string both yield zero arguments. -/
theorem no_empty_tokens :
    (∀ (input : String) (ts : List String),
      parse_args input = some ts → ∀ a ∈ ts, a ≠ "") ∧
    parse_args "\"\"" = some [] ∧ parse_args "" = some [] := by
  refine ⟨?_, by decide, by decide⟩
  intro input ts hts a ha
  obtain ⟨t, ht, -, hout⟩ :=
    runToks_pres input.data initState (fun hfalse => by simp [initState] at hfalse)
  rw [parse_args, ht] at hts
  have hts' : (finishToks t).map (fun l => String.mk l) = ts := by
    exact Option.some.inj hts
  rw [← hts'] at ha
  obtain ⟨l, hl, hla⟩ := List.mem_map.1 ha
  have hlne : l ≠ [] := by
    unfold finishToks at hl
    by_cases hcur : (if t.escaped then t.cur ++ ['\\'] else t.cur) = []
    · rw [if_pos hcur] at hl
      rcases hout l hl with hmem | hne
      · simp [initState] at hmem
      · exact hne
    · rw [if_neg hcur] at hl
      rcases List.mem_append.1 hl with hmem | hmem
      · rcases hout l hmem with hmem' | hne
        · simp [initState] at hmem'
        · exact hne
      · rw [List.mem_singleton.1 hmem]
        exact hcur
  intro hempty
  apply hlne
  have : (String.mk l).data = String.data "" := by rw [hla, hempty]
  exact this

/-- Witness for C3: the no-empty-token property applied to a concrete
input mixing quotes and whitespace. -/
theorem no_empty_tokens_witness :
    parse_args "a \"\" b" = some ["a", "b"] ∧ ("b" : String) ≠ "" := by
  refine ⟨by decide, ?_⟩
  exact no_empty_tokens.1 "a \"\" b" ["a", "b"] (by decide) "b" (by decide)

/-- The resolver loop equals a first-match search over the candidate paths
in search-path order. -/
theorem tryFind_eq_find (fs : FsModel) (dirs : List String) (name : String) :
    try_find_executable fs dirs name =
      (dirs.map (fun d => pathJoin d name)).find? (execOk fs) := by
  induction dirs with
  | nil => rfl
  | cons d rest ih =>
    simp only [try_find_executable, List.map_cons, List.find?]
    cases hfs : fs (pathJoin d name) with
    | none => simp [execOk, hfs, ih]
    | some md =>
      cases hex : md.isFile && is_executable md with
      | true => simp [execOk, hfs, hex]
      | false => simp [execOk, hfs, hex, ih]

/-- C4: the executable resolver scans the directories in order and returns
the first candidate that exists as a regular file with at least one
executable permission bit; an empty search path (and any path with no
matching candidate, since `find?` of a predicate false everywhere is
`none`) yields not-found, and a hit in an earlier directory shadows any
later one. -/
theorem resolver_first_executable_match :
    (∀ (fs : FsModel) (dirs : List String) (name : String),
      try_find_executable fs dirs name =
        (dirs.map (fun d => pathJoin d name)).find? (execOk fs)) ∧
    (∀ (fs : FsModel) (name : String), try_find_executable fs [] name = none) ∧
    (∀ (fs : FsModel) (dirA : String) (rest : List String) (name : String),
      execOk fs (pathJoin dirA name) = true →
      try_find_executable fs (dirA :: rest) name = some (pathJoin dirA name)) := by
  refine ⟨tryFind_eq_find, fun fs name => rfl, ?_⟩
  intro fs dirA rest name h
  rw [tryFind_eq_find, List.map_cons, List.find?_cons_of_pos _ h]

/-- Filesystem model for the resolver witness: the executable `tool`
exists in both `/a` and `/b`. -/
def wfs : FsModel := fun p =>
  if p = "/a/tool" then some ⟨true, 0o755⟩
  else if p = "/b/tool" then some ⟨true, 0o755⟩
  else none

/-- Witness for C4: with `tool` present and executable in both search
directories, the resolver returns the candidate under the first one. -/
theorem resolver_first_executable_match_witness :
    try_find_executable wfs ["/a", "/b"] "tool" = some "/a/tool" := by
  have h := resolver_first_executable_match.2.2 wfs "/a" ["/b"] "tool" (by decide)
  have hp : pathJoin "/a" "tool" = "/a/tool" := by decide
  rw [hp] at h
  exact h

/-- C5: `type` reports a shell builtin for every name in the builtin
table, for every environment — the resolver is never consulted, so an
external executable of the same name cannot change the answer; for any
other name it reports the resolved path when the resolver finds one and
fails with `NotFound` carrying the name otherwise. -/
theorem type_builtin_precedence :
    (∀ (env : Env) (name : String), name ∈ builtins →
      commandRun env (Command.typeCmd name) =
        ExecResult.ok [name ++ " is a shell builtin"]) ∧
    (∀ (env : Env) (name p : String), name ∉ builtins →
      try_find_executable env.fs env.path_dirs name = some p →
      commandRun env (Command.typeCmd name) = ExecResult.ok [name ++ " is " ++ p]) ∧
    (∀ (env : Env) (name : String), name ∉ builtins →
      try_find_executable env.fs env.path_dirs name = none →
      commandRun env (Command.typeCmd name) =
        ExecResult.err (ShellError.notFound name)) := by
  refine ⟨?_, ?_, ?_⟩
  · intro env name h
    simp [commandRun, h]
  · intro env name p h hfind
    simp [commandRun, h, hfind]
  · intro env name h hfind
    simp [commandRun, h, hfind]

/-- Environment for the C5 witness: an external executable named `echo`
exists on the search path, and nothing else does. -/
def envEcho : Env where
  fs := fun p => if p = "/bin/echo" then some ⟨true, 0o755⟩ else none
  path_dirs := ["/bin"]
  home := none
  cwd := Except.error "io"
  chdirOk := fun _ => false
  runExternal := fun _ _ => Except.error "io"

/-- Witness for C5: even though `/bin/echo` is an executable on the search
path of `envEcho`, `type echo` reports the builtin; an unknown name in the
same environment fails with `NotFound`. -/
theorem type_builtin_precedence_witness :
    try_find_executable envEcho.fs envEcho.path_dirs "echo" = some "/bin/echo" ∧
    commandRun envEcho (Command.typeCmd "echo") =
      ExecResult.ok ["echo is a shell builtin"] ∧
    commandRun envEcho (Command.typeCmd "zzz") =
      ExecResult.err (ShellError.notFound "zzz") := by
  refine ⟨by decide, ?_, ?_⟩
  · exact type_builtin_precedence.1 envEcho "echo" (by decide)
  · exact type_builtin_precedence.2.2 envEcho "zzz" (by decide) (by decide)

/-- C6: evaluation of the `cd` path computation.  The code resolves the
target `~/sub` with `HOME=/home/user` to `/sub`, not `/home/user/sub`:
after stripping `~` the remainder `/sub` is absolute, and `PathBuf::join`
replaces the whole path with an absolute argument, so the `HOME` prefix is
discarded.  The bare target `~` does reach the home directory (with a
trailing separator), a missing `HOME` is fatal, and a target without the
`~` prefix is used literally. -/
theorem cd_tilde_path_eval :
    cdActualPath (some "/home/user") "~/sub" = some "/sub" ∧
    "/sub" ≠ "/home/user/sub" ∧
    cdActualPath (some "/home/user") "~" = some "/home/user/" ∧
    cdActualPath none "~/sub" = none ∧
    cdActualPath (some "/home/user") "p/q" = some "p/q" := by decide

/-- A command executes to the clean `process::exit(0)` marker exactly when
it is the `exit` builtin. -/
theorem commandRun_exited_iff (env : Env) (cmd : Command) :
    commandRun env cmd = ExecResult.exited ↔ cmd = Command.exit := by
  cases cmd with
  | exit => simp [commandRun]
  | echo a => simp [commandRun]
  | pwd => cases h : env.cwd <;> simp [commandRun, h]
  | cd p =>
    cases h : cdActualPath env.home p with
    | none => simp [commandRun, h]
    | some a => by_cases hc : env.chdirOk a <;> simp [commandRun, h, hc]
  | typeCmd a =>
    by_cases hb : a ∈ builtins
    · simp [commandRun, hb]
    · cases h : try_find_executable env.fs env.path_dirs a <;>
        simp [commandRun, hb, h]
  | external n as =>
    cases h : try_find_executable env.fs env.path_dirs n with
    | none => simp [commandRun, h]
    | some p => cases h2 : env.runExternal n as <;> simp [commandRun, h, h2]

/-- A command executes to the fatal-panic marker exactly when it is a `cd`
whose path computation panics. -/
theorem commandRun_fatal_iff (env : Env) (cmd : Command) :
    commandRun env cmd = ExecResult.fatal ↔
      ∃ p, cmd = Command.cd p ∧ cdActualPath env.home p = none := by
  cases cmd with
  | exit => simp [commandRun]
  | echo a => simp [commandRun]
  | pwd => cases h : env.cwd <;> simp [commandRun, h]
  | cd p =>
    cases h : cdActualPath env.home p with
    | none => simp [commandRun, h]
    | some a => by_cases hc : env.chdirOk a <;> simp [commandRun, h, hc]
  | typeCmd a =>
    by_cases hb : a ∈ builtins
    · simp [commandRun, hb]
    · cases h : try_find_executable env.fs env.path_dirs a <;>
        simp [commandRun, hb, h]
  | external n as =>
    cases h : try_find_executable env.fs env.path_dirs n with
    | none => simp [commandRun, h]
    | some p => cases h2 : env.runExternal n as <;> simp [commandRun, h, h2]

/-- The `cd` path computation panics exactly when the target starts with
`~` and `HOME` is unset. -/
theorem cdActualPath_none_iff (home : Option String) (target : String) :
    cdActualPath home target = none ↔
      home = none ∧ ∃ rest, target.data = '~' :: rest := by
  unfold cdActualPath
  cases ht : target.data with
  | nil => simp
  | cons c cs =>
    by_cases hc : c = '~'
    · subst hc
      cases home <;> simp
    · simp [hc]

/-- C7 (amended): whenever executing the parsed command returns an error,
the read loop continues the session, printing `NotFound` and
`CommandNotFound` errors (formatted `name: not found` / `name: command not
found`) to standard output and every other error to standard error; the
loop terminates cleanly only on the `exit` builtin; the only other way an
iteration ends the process is the fatal abort of `cd` on a `~` target when
`HOME` is unset. -/
theorem error_loop_classification :
    (∀ c : String, displayShellError (ShellError.notFound c) = c ++ ": not found" ∧
      displayShellError (ShellError.commandNotFound c) = c ++ ": command not found") ∧
    (∀ (env : Env) (line : String) (e : ShellError),
      commandRun env (Command.parse line) = ExecResult.err e →
      iteration env line =
        (if isUserFacing e then IterResult.continueSession [displayShellError e] []
         else IterResult.continueSession [] [displayShellError e])) ∧
    (∀ (env : Env) (line : String),
      iteration env line = IterResult.exited ↔ Command.parse line = Command.exit) ∧
    (∀ (env : Env) (line : String), iteration env line = IterResult.fatal →
      env.home = none ∧
        ∃ rest : List Char, Command.parse line = Command.cd (String.mk ('~' :: rest))) := by
  refine ⟨fun c => ⟨rfl, rfl⟩, ?_, ?_, ?_⟩
  · intro env line e h
    unfold iteration
    rw [h]
  · intro env line
    constructor
    · intro h
      cases hc : commandRun env (Command.parse line) with
      | ok outs => simp [iteration, hc] at h
      | err e =>
        simp only [iteration, hc] at h
        split at h <;> simp at h
      | exited => exact (commandRun_exited_iff env (Command.parse line)).1 hc
      | fatal => simp [iteration, hc] at h
    · intro h
      unfold iteration
      rw [h]
      rfl
  · intro env line h
    cases hc : commandRun env (Command.parse line) with
    | ok outs => simp [iteration, hc] at h
    | err e =>
      simp only [iteration, hc] at h
      split at h <;> simp at h
    | exited => simp [iteration, hc] at h
    | fatal =>
      obtain ⟨p, hp, hnone⟩ := (commandRun_fatal_iff env (Command.parse line)).1 hc
      obtain ⟨hhome, rest, hdata⟩ := (cdActualPath_none_iff env.home p).1 hnone
      refine ⟨hhome, rest, ?_⟩
      rw [hp]
      congr 1
      cases p with
      | mk data => exact congrArg String.mk hdata

/-- Environment with every collaborator failing and `HOME` unset. -/
def envNone : Env where
  fs := fun _ => none
  path_dirs := []
  home := none
  cwd := Except.error "io"
  chdirOk := fun _ => false
  runExternal := fun _ _ => Except.error "io"

/-- Counterexample to C7 as stated: `cd ~` with `HOME` unset terminates
the process (the `.expect` panic), although it is not the `exit`
command — so `Exit` is not the only command that terminates the
process. -/
theorem cd_home_unset_terminates_counterexample :
    iteration envNone "cd ~" = IterResult.fatal ∧
    Command.parse "cd ~" ≠ Command.exit := by decide

/-- Witness for C7: the classification applied to a concrete erroring
command: `type zzz` in an environment with an empty search path fails with
`NotFound` and its message goes to standard output, the session
continuing. -/
theorem error_loop_classification_witness :
    iteration envNone "type zzz" =
      IterResult.continueSession ["zzz: not found"] [] := by
  have h := error_loop_classification.2.1 envNone "type zzz"
    (ShellError.notFound "zzz") (by decide)
  rw [h]
  decide

/-- Formalization of the claim's wording for the head split of the command
parser (split on the first whitespace character), used only to compare
against the code's space-only split. -/
def splitFirstWsL : List Char → Option (List Char × List Char)
  | [] => Option.none
  | c :: cs =>
    if isRustWhitespace c then some ([], cs)
    else (splitFirstWsL cs).map (fun p => (c :: p.1, p.2))

/-- String wrapper for `splitFirstWsL`, with the same no-split fallback as
the code's `unwrap_or((input, ""))`. -/
def splitFirstWs (input : String) : String × String :=
  match splitFirstWsL input.data with
  | some (n, r) => (String.mk n, String.mk r)
  | Option.none => (input, "")

/-- Counterexample to C9 as stated: the code splits only on the first
space character (`split_once(' ')`), not on the first whitespace
character: on the line `a<TAB>b` the code keeps the whole line as the
command name, while a first-whitespace split would give name `a` and
remainder `b`. -/
theorem parse_split_whitespace_counterexample :
    parseNameArgs "a\tb" = ("a\tb", "") ∧
    splitFirstWs "a\tb" = ("a", "b") ∧
    Command.parse "a\tb" = Command.external "a\tb" [] ∧
    ("a\tb", ("" : String)) ≠ ("a", "b") := by decide

/-- Splitting at the first separator after a separator-free prefix. -/
theorem splitOnceChar_append (sep : Char) :
    ∀ (l1 l2 : List Char), sep ∉ l1 →
      splitOnceChar sep (l1 ++ sep :: l2) = some (l1, l2) := by
  intro l1
  induction l1 with
  | nil =>
    intro l2 _
    simp [splitOnceChar]
  | cons c cs ih =>
    intro l2 h
    have hc : ¬c = sep := fun hcs => h (hcs ▸ List.mem_cons_self c cs)
    have hcs : sep ∉ cs := fun hmem => h (List.mem_cons_of_mem c hmem)
    simp [splitOnceChar, hc, ih l2 hcs]

/-- A separator-free list does not split. -/
theorem splitOnceChar_none (sep : Char) :
    ∀ l : List Char, sep ∉ l → splitOnceChar sep l = Option.none := by
  intro l
  induction l with
  | nil => intro _; rfl
  | cons c cs ih =>
    intro h
    have hc : ¬c = sep := fun hcs => h (hcs ▸ List.mem_cons_self c cs)
    have hcs : sep ∉ cs := fun hmem => h (List.mem_cons_of_mem c hmem)
    simp [splitOnceChar, hc, ih hcs]

/-- C9 (amended): the command parser splits the line at the first space
character (' ', not any whitespace) into a name and a raw remainder, the
remainder being empty when the line contains no space; the name is matched
exactly and case-sensitively against the builtin names, and any
unrecognized name produces the `External` variant carrying the name and
the tokenized remainder. -/
theorem parse_splits_on_space :
    (∀ l1 l2 : List Char, ' ' ∉ l1 →
      parseNameArgs (String.mk (l1 ++ ' ' :: l2)) = (String.mk l1, String.mk l2)) ∧
    (∀ l : List Char, ' ' ∉ l →
      parseNameArgs (String.mk l) = (String.mk l, "")) ∧
    (∀ input : String, (parseNameArgs input).1 ∉ builtins →
      Command.parse input =
        Command.external (parseNameArgs input).1 (tokenize (parseNameArgs input).2)) ∧
    Command.parse "Echo x" = Command.external "Echo" ["x"] := by
  refine ⟨?_, ?_, ?_, by decide⟩
  · intro l1 l2 h
    unfold parseNameArgs
    rw [show (String.mk (l1 ++ ' ' :: l2)).data = l1 ++ ' ' :: l2 from rfl,
      splitOnceChar_append ' ' l1 l2 h]
  · intro l h
    unfold parseNameArgs
    rw [show (String.mk l).data = l from rfl, splitOnceChar_none ' ' l h]
  · intro input h
    simp only [builtins, List.mem_cons, List.not_mem_nil, or_false, not_or] at h
    obtain ⟨h1, h2, h3, h4, h5⟩ := h
    simp [Command.parse, h1, h2, h3, h4, h5]

/-- Witness for C9: the split lemmas applied at concrete lists, and the
dispatch conclusion at a concrete unrecognized name. -/
theorem parse_splits_on_space_witness :
    parseNameArgs (String.mk (['l', 's'] ++ ' ' :: ['-', 'l'])) =
      (String.mk ['l', 's'], String.mk ['-', 'l']) ∧
    parseNameArgs (String.mk ['l', 's']) = (String.mk ['l', 's'], "") ∧
    Command.parse "xyz a" =
      Command.external (parseNameArgs "xyz a").1 (tokenize (parseNameArgs "xyz a").2) := by
  refine ⟨?_, ?_, ?_⟩
  · exact parse_splits_on_space.1 ['l', 's'] ['-', 'l'] (by decide)
  · exact parse_splits_on_space.2.1 ['l', 's'] (by decide)
  · exact parse_splits_on_space.2.2.1 "xyz a" (by decide)

/-- C10 (amended): the empty line parses to `External` with empty name and
no arguments; in any environment whose filesystem does not present the
directory-candidate paths `dir/` as executable regular files, execution
fails with `NotFound ""`, so the session prints `": not found"` on
standard output and continues. -/
theorem empty_line_not_found :
    Command.parse "" = Command.external "" [] ∧
    (∀ env : Env, (∀ d ∈ env.path_dirs, execOk env.fs (pathJoin d "") = false) →
      commandRun env (Command.parse "") = ExecResult.err (ShellError.notFound "") ∧
      iteration env "" = IterResult.continueSession [": not found"] []) := by
  have hparse : Command.parse "" = Command.external "" [] := by decide
  refine ⟨hparse, ?_⟩
  intro env h
  have hfind : try_find_executable env.fs env.path_dirs "" = Option.none := by
    rw [tryFind_eq_find, List.find?_eq_none]
    intro x hx
    obtain ⟨d, hd, rfl⟩ := List.mem_map.1 hx
    simp [h d hd]
  have hrun : commandRun env (Command.parse "") = ExecResult.err (ShellError.notFound "") := by
    rw [hparse]
    simp [commandRun, hfind]
  refine ⟨hrun, ?_⟩
  have hd : displayShellError (ShellError.notFound "") = ": not found" := by decide
  simp [iteration, hrun, isUserFacing, hd]

/-- Environment for the C10 witness and counterexample: one search
directory whose directory path itself exists but is not a regular file. -/
def env0 : Env where
  fs := fun p => if p = "/bin/" then some ⟨false, 0o755⟩ else Option.none
  path_dirs := ["/bin"]
  home := Option.none
  cwd := Except.error "io"
  chdirOk := fun _ => false
  runExternal := fun _ _ => Except.error "io"

/-- Witness for C10: the empty-line behavior in the concrete environment
`env0`. -/
theorem empty_line_not_found_witness :
    commandRun env0 (Command.parse "") = ExecResult.err (ShellError.notFound "") ∧
    iteration env0 "" = IterResult.continueSession [": not found"] [] :=
  empty_line_not_found.2 env0 (by decide)

/-- Counterexample to C10 as stated: the message printed for the empty
line is `": not found"` (the `Display` text of `NotFound`), not the
claimed `": command not found"`. -/
theorem empty_line_message_counterexample :
    iteration env0 "" = IterResult.continueSession [": not found"] [] ∧
    (": not found" : String) ≠ ": command not found" := by decide

/-- A character that is neither a quote character nor a backslash. -/
def cleanChar (c : Char) : Prop := c ≠ '\'' ∧ c ≠ '"' ∧ c ≠ '\\'

instance (c : Char) : Decidable (cleanChar c) := by
  unfold cleanChar
  infer_instance

/-- A character the clean fragment of the tokenizer can push: clean and
not whitespace. -/
def goodChar (c : Char) : Prop := cleanChar c ∧ isRustWhitespace c = false

/-- The accumulator discipline of the tokenizer restricted to quote-free,
backslash-free input: split on whitespace runs. -/
def simpleSplit (out : List (List Char)) (cur : List Char) :
    List Char → List (List Char) × List Char
  | [] => (out, cur)
  | c :: cs =>
    if isRustWhitespace c then
      simpleSplit (if cur = [] then out else out ++ [cur]) [] cs
    else simpleSplit out (cur ++ [c]) cs

/-- End-of-input flush at the split level. -/
def finishSplit (p : List (List Char) × List Char) : List (List Char) :=
  if p.2 = [] then p.1 else p.1 ++ [p.2]

/-- On clean input the tokenizer loop stays unquoted and unescaped and
computes exactly `simpleSplit`. -/
theorem runToks_clean : ∀ (cs : List Char) (out : List (List Char)) (cur : List Char),
    (∀ c ∈ cs, cleanChar c) →
    runToks ⟨out, cur, Quote.none, false⟩ cs =
      some ⟨(simpleSplit out cur cs).1, (simpleSplit out cur cs).2, Quote.none, false⟩
  | [], out, cur, _ => rfl
  | c :: cs, out, cur, h => by
    have hc := h c (List.mem_cons_self c cs)
    have hcs : ∀ x ∈ cs, cleanChar x := fun x hx => h x (List.mem_cons_of_mem c hx)
    by_cases hw : isRustWhitespace c
    · have hstep : stepState ⟨out, cur, Quote.none, false⟩ c =
          some ⟨if cur = [] then out else out ++ [cur], [], Quote.none, false⟩ := by
        simp [stepState, step, hc.1, hc.2.1, hc.2.2, hw, flushOut]
      simp only [runToks, hstep]
      rw [runToks_clean cs (if cur = [] then out else out ++ [cur]) [] hcs]
      simp [simpleSplit, hw]
    · have hstep : stepState ⟨out, cur, Quote.none, false⟩ c =
          some ⟨out, cur ++ [c], Quote.none, false⟩ := by
        simp [stepState, step, hc.1, hc.2.1, hc.2.2, hw]
      simp only [runToks, hstep]
      rw [runToks_clean cs out (cur ++ [c]) hcs]
      simp [simpleSplit, hw]

/-- The split of clean input produces only non-empty tokens made of good
characters, with a good accumulator. -/
theorem simpleSplit_good : ∀ (cs : List Char) (out : List (List Char)) (cur : List Char),
    (∀ c ∈ cs, cleanChar c) →
    (∀ t ∈ out, t ≠ [] ∧ ∀ c ∈ t, goodChar c) →
    (∀ c ∈ cur, goodChar c) →
    (∀ t ∈ (simpleSplit out cur cs).1, t ≠ [] ∧ ∀ c ∈ t, goodChar c) ∧
    (∀ c ∈ (simpleSplit out cur cs).2, goodChar c)
  | [], _, _, _, hout, hcur => ⟨hout, hcur⟩
  | c :: cs, out, cur, h, hout, hcur => by
    have hc := h c (List.mem_cons_self c cs)
    have hcs : ∀ x ∈ cs, cleanChar x := fun x hx => h x (List.mem_cons_of_mem c hx)
    by_cases hw : isRustWhitespace c
    · have hout' : ∀ t ∈ (if cur = [] then out else out ++ [cur]),
          t ≠ [] ∧ ∀ x ∈ t, goodChar x := by
        by_cases hcur0 : cur = []
        · simpa [hcur0] using hout
        · intro t ht
          rw [if_neg hcur0] at ht
          rcases List.mem_append.1 ht with ht | ht
          · exact hout t ht
          · rw [List.mem_singleton.1 ht]
            exact ⟨hcur0, hcur⟩
      have ih := simpleSplit_good cs (if cur = [] then out else out ++ [cur]) [] hcs
        hout' (fun x hx => absurd hx (List.not_mem_nil x))
      simpa [simpleSplit, hw] using ih
    · have hcur' : ∀ x ∈ cur ++ [c], goodChar x := by
        intro x hx
        rcases List.mem_append.1 hx with hx | hx
        · exact hcur x hx
        · rw [List.mem_singleton.1 hx]
          exact ⟨hc, by simpa using hw⟩
      have ih := simpleSplit_good cs out (cur ++ [c]) hcs hout hcur'
      simpa [simpleSplit, hw] using ih

/-- The full flushed split of clean input produces only non-empty tokens
of good characters. -/
theorem finishSplit_good (cs : List Char) (h : ∀ c ∈ cs, cleanChar c) :
    ∀ t ∈ finishSplit (simpleSplit [] [] cs), t ≠ [] ∧ ∀ c ∈ t, goodChar c := by
  have hg := simpleSplit_good cs [] [] h
    (fun t ht => absurd ht (List.not_mem_nil t))
    (fun c hc => absurd hc (List.not_mem_nil c))
  intro t ht
  unfold finishSplit at ht
  by_cases h2 : (simpleSplit [] [] cs).2 = []
  · rw [if_pos h2] at ht
    exact hg.1 t ht
  · rw [if_neg h2] at ht
    rcases List.mem_append.1 ht with ht | ht
    · exact hg.1 t ht
    · rw [List.mem_singleton.1 ht]
      exact ⟨h2, hg.2⟩

/-- Consuming a whitespace-free token extends the accumulator. -/
theorem simpleSplit_append_token :
    ∀ (t : List Char) (out : List (List Char)) (cur rest : List Char),
      (∀ c ∈ t, isRustWhitespace c = false) →
      simpleSplit out cur (t ++ rest) = simpleSplit out (cur ++ t) rest
  | [], out, cur, rest, _ => by simp
  | c :: t', out, cur, rest, h => by
    have hc : isRustWhitespace c = false := h c (List.mem_cons_self c t')
    have ht' : ∀ x ∈ t', isRustWhitespace x = false :=
      fun x hx => h x (List.mem_cons_of_mem c hx)
    calc simpleSplit out cur ((c :: t') ++ rest)
        = simpleSplit out (cur ++ [c]) (t' ++ rest) := by simp [simpleSplit, hc]
      _ = simpleSplit out ((cur ++ [c]) ++ t') rest :=
          simpleSplit_append_token t' out (cur ++ [c]) rest ht'
      _ = simpleSplit out (cur ++ (c :: t')) rest := by rw [List.append_assoc]; rfl

/-- Splitting the space-joined list of non-empty whitespace-free tokens
recovers exactly those tokens. -/
theorem simpleSplit_join : ∀ (ts : List (List Char)) (out : List (List Char)),
    (∀ t ∈ ts, t ≠ [] ∧ ∀ c ∈ t, isRustWhitespace c = false) →
    finishSplit (simpleSplit out [] (joinSepL ts)) = out ++ ts
  | [], out, _ => by simp [joinSepL, simpleSplit, finishSplit]
  | [t], out, h => by
    have ht := h t (List.mem_cons_self t [])
    have hsp : simpleSplit out [] (t ++ []) = simpleSplit out ([] ++ t) [] :=
      simpleSplit_append_token t out [] [] ht.2
    simp only [List.append_nil, List.nil_append] at hsp
    rw [show joinSepL [t] = t from rfl, hsp]
    simp [simpleSplit, finishSplit, ht.1]
  | t :: t' :: ts, out, h => by
    have ht := h t (List.mem_cons_self _ _)
    have hrest : ∀ x ∈ t' :: ts, x ≠ [] ∧ ∀ c ∈ x, isRustWhitespace c = false :=
      fun x hx => h x (List.mem_cons_of_mem t hx)
    have step1 : simpleSplit out [] (t ++ ' ' :: joinSepL (t' :: ts)) =
        simpleSplit out t (' ' :: joinSepL (t' :: ts)) := by
      have hsp := simpleSplit_append_token t out [] (' ' :: joinSepL (t' :: ts)) ht.2
      simpa using hsp
    have step2 : simpleSplit out t (' ' :: joinSepL (t' :: ts)) =
        simpleSplit (out ++ [t]) [] (joinSepL (t' :: ts)) := by
      have hws : isRustWhitespace ' ' = true := by decide
      simp [simpleSplit, hws, ht.1]
    have ih := simpleSplit_join (t' :: ts) (out ++ [t]) hrest
    rw [show joinSepL (t :: t' :: ts) = t ++ ' ' :: joinSepL (t' :: ts) from rfl,
      step1, step2, ih]
    simp

/-- Characters of a space-join of clean tokens are clean. -/
theorem joinSepL_clean : ∀ ts : List (List Char),
    (∀ t ∈ ts, ∀ c ∈ t, cleanChar c) → ∀ c ∈ joinSepL ts, cleanChar c
  | [], _, c, hc => absurd hc (List.not_mem_nil c)
  | [t], h, c, hc => h t (List.mem_cons_self t []) c hc
  | t :: t' :: ts, h, c, hc => by
    rw [show joinSepL (t :: t' :: ts) = t ++ ' ' :: joinSepL (t' :: ts) from rfl] at hc
    rcases List.mem_append.1 hc with hc | hc
    · exact h t (List.mem_cons_self _ _) c hc
    · rcases List.mem_cons.1 hc with hc | hc
      · rw [hc]
        exact (by decide : cleanChar ' ')
      · exact joinSepL_clean (t' :: ts)
          (fun x hx => h x (List.mem_cons_of_mem t hx)) c hc

/-- Mapping to strings and back to character lists is the identity. -/
theorem map_data_map_mk : ∀ ts : List (List Char),
    (ts.map (fun l => String.mk l)).map String.data = ts
  | [] => rfl
  | t :: ts => congrArg (List.cons t) (map_data_map_mk ts)

/-- On clean input the tokenizer is exactly the whitespace split. -/
theorem tokenize_clean (s : String) (h : ∀ c ∈ s.data, cleanChar c) :
    tokenize s = (finishSplit (simpleSplit [] [] s.data)).map (fun l => String.mk l) := by
  have hr : runToks initState s.data =
      some ⟨(simpleSplit [] [] s.data).1, (simpleSplit [] [] s.data).2,
        Quote.none, false⟩ :=
    runToks_clean s.data [] [] h
  have hfin : finishToks ⟨(simpleSplit [] [] s.data).1, (simpleSplit [] [] s.data).2,
      Quote.none, false⟩ = finishSplit (simpleSplit [] [] s.data) := by
    simp [finishToks, finishSplit]
  simp only [tokenize, parse_args, hr, hfin]

/-- C8: for every input without quote or backslash characters, tokenizing
the single-space join of its tokens returns the same token list. -/
theorem tokenize_join_roundtrip (s : String) (h : ∀ c ∈ s.data, cleanChar c) :
    tokenize (joinSpace (tokenize s)) = tokenize s := by
  have h1 : tokenize s =
      (finishSplit (simpleSplit [] [] s.data)).map (fun l => String.mk l) :=
    tokenize_clean s h
  have hgood := finishSplit_good s.data h
  have hjoin : joinSpace ((finishSplit (simpleSplit [] [] s.data)).map
        (fun l => String.mk l)) =
      String.mk (joinSepL (finishSplit (simpleSplit [] [] s.data))) := by
    unfold joinSpace
    rw [map_data_map_mk]
  have hcleanJ : ∀ c ∈ (String.mk (joinSepL (finishSplit
      (simpleSplit [] [] s.data)))).data, cleanChar c :=
    fun c hc => joinSepL_clean _ (fun t ht c' hc' => ((hgood t ht).2 c' hc').1) c hc
  have h2 := tokenize_clean
    (String.mk (joinSepL (finishSplit (simpleSplit [] [] s.data)))) hcleanJ
  have h3 : finishSplit (simpleSplit [] []
        (joinSepL (finishSplit (simpleSplit [] [] s.data)))) =
      finishSplit (simpleSplit [] [] s.data) := by
    have hj := simpleSplit_join (finishSplit (simpleSplit [] [] s.data)) []
      (fun t ht => ⟨(hgood t ht).1, fun c hc => ((hgood t ht).2 c hc).2⟩)
    simpa using hj
  rw [h1, hjoin, h2]
  exact congrArg (List.map (fun l => String.mk l)) h3

/-- Witness for C8: the round trip evaluated on a concrete clean input
with a run of whitespace. -/
theorem tokenize_join_roundtrip_witness :
    tokenize (joinSpace (tokenize "ab  cd")) = tokenize "ab  cd" ∧
    tokenize "ab  cd" = ["ab", "cd"] :=
  ⟨tokenize_join_roundtrip "ab  cd" (by decide), by decide⟩

example : Command.parse "cd ~" = Command.cd "~" := by decide
example : cdActualPath (some "/home/user") "~/sub" = some "/sub" := by decide
example : cdActualPath (some "/home/user") "~" = some "/home/user/" := by decide
example : parseNameArgs "a\tb" = ("a\tb", "") := by decide
example : Command.parse "" = Command.external "" [] := by decide
example : displayShellError (ShellError.notFound "") = ": not found" := by decide

end Sh
